import Mathlib

/-!
# mini-rv32ima on PongoOS: host side of the emulator

A shallow embedding of `src/mini-rv32ima.c`: the keyboard buffer, the MMIO and
CSR callbacks, the image loader (the `restart:` block of `emulator`), the entry
register set-up, the default-DTB RAM-size patch and the outer driver loop.

Conventions.
* C `uint32_t` values are `Nat` with an explicit `% 4294967296` wherever the C
  arithmetic can wrap; C `int` / `long long` values are `Int`.
* Guest RAM (`ram_image`) is a function from byte offset to byte value together
  with its size `ram_amt`; every access the C code performs through a computed
  pointer is guarded by an explicit bounds check, and an access outside the
  `malloc`ed buffer is reported as `Fault.outOfBounds` (undefined behaviour in C).
* 32-bit loads and stores through `uint32_t *` are little-endian (PongoOS runs
  on little-endian ARM64), and `size_t` is 64 bits wide, so in
  `dtbLen + rv32imaKernelLen + sizeof(...)` only the first addition wraps.
* `mini-rv32ima.h` and `default64mbdtc.h` are not part of the sources at hand;
  what the C file takes from them is collected in `Platform`.
-/

namespace MiniRv32ima

/-! ## Machine integers -/

/-- Conversion of a C integer value to `uint32_t`. -/
def toU32 (z : Int) : Nat := (z % 4294967296).toNat

/-- Conversion of an integer value to a 32-bit `int` (two's complement wrap). -/
def toInt32 (z : Int) : Int :=
  if z % 4294967296 < 2147483648 then z % 4294967296 else z % 4294967296 - 4294967296

/-- Conversion of an `int` to `char`; `charSigned` is the signedness of plain
`char` on the target ABI. -/
def toCChar (charSigned : Bool) (z : Int) : Int :=
  if charSigned then
    (if z % 256 < 128 then z % 256 else z % 256 - 256)
  else z % 256

/-! ## Keyboard buffer (`is_eofd`, `KBbuf`, `hasKBBuf`) -/

/-- The three file-scope variables shared by the input task and the interpreter. -/
structure KB where
  is_eofd : Int
  KBbuf : Int
  hasKBBuf : Bool

/-- `rv32ima_kbd`: one run of the input task.  `c` is the result of `getchar()`,
`atEof` the result of `feof(stdin)`, `should_exit` the value of
`rv32ima_task_should_exit`; `task_exit()` does not return. -/
def rv32ima_kbd (charSigned : Bool) (c : Int) (atEof : Bool) (should_exit : Bool) (kb : KB) : KB :=
  let kb1 : KB := { kb with KBbuf := toCChar charSigned c }
  if should_exit then kb1
  else if atEof then { kb1 with hasKBBuf := false }
  else { kb1 with hasKBBuf := true }

/-- `IsKBHit`. -/
def IsKBHit (kb : KB) : Int :=
  if kb.is_eofd ≠ 0 then -1
  else if kb.hasKBBuf then 1
  else 0

/-- `ReadKBByte`: the returned `int` and the buffer afterwards. -/
def ReadKBByte (kb : KB) : Int × KB :=
  if kb.is_eofd ≠ 0 then (toInt32 0xffffffff, kb)
  else if !kb.hasKBBuf then (-1, kb)
  else (kb.KBbuf, { kb with hasKBBuf := false })

/-! ## MMIO and CSR callbacks -/

/-- `HandleControlStore`: the returned `uint32_t` and the bytes sent to stdout
(`printf("%c", val)` emits `val` converted to `unsigned char`). -/
def HandleControlStore (addy val : Nat) : Nat × List Nat :=
  if addy = 0x10000000 then (0, [val % 256])
  else (0, [])

/-- `MINIRV32_HANDLE_MEM_STORE_CONTROL(addy, val)`:
`if( HandleControlStore( addy, val ) ) return val;`.  The result is `some val`
when the hook makes the step function return `val`, `none` when execution
continues after the hook. -/
def storeControlHook (addy val : Nat) : Option Nat :=
  if (HandleControlStore addy val).1 ≠ 0 then some val else none

/-- `HandleControlLoad`: the returned `uint32_t` and the buffer afterwards. -/
def HandleControlLoad (addy : Nat) (kb : KB) : Nat × KB :=
  if addy = 0x10000005 then (toU32 (Int.lor 0x60 (IsKBHit kb)), kb)
  else if addy = 0x10000000 ∧ IsKBHit kb ≠ 0 then
    ((toU32 (ReadKBByte kb).1), (ReadKBByte kb).2)
  else (0, kb)

/-- `HandleOtherCSRRead`: the returned `int32_t` and the buffer afterwards. -/
def HandleOtherCSRRead (csrno : Nat) (kb : KB) : Int × KB :=
  if csrno = 0x140 then
    if IsKBHit kb = 0 then (-1, kb)
    else ReadKBByte kb
  else (0, kb)

/-- Guest RAM contents: byte value at each offset of `ram_image`. -/
abbrev Ram := Nat → Nat

/-- What `HandleOtherCSRWrite` sends to stdout. -/
inductive Out
  | dec (value : Nat)
  | hex (value : Nat)
  | invalidPtr (value : Nat)
  | bytes (data : List Nat)
  | char (value : Nat)
  deriving DecidableEq, Repr

/-- The `while( ptrend < ram_amt )` loop of the 0x138 branch.  Returns the final
`ptrend`; `reads` accumulates the offsets at which `image` is read.  The
increment cannot wrap: it is only reached with `ptrend < ram_amt`, and
`ram_amt` is a `uint32_t`. -/
def scanString (image : Ram) (ram_amt : Nat) (ptrend : Nat) (reads : List Nat) : Nat × List Nat :=
  if ptrend < ram_amt then
    if image ptrend = 0 then (ptrend, reads ++ [ptrend])
    else scanString image ram_amt (ptrend + 1) (reads ++ [ptrend])
  else (ptrend, reads)
termination_by ram_amt - ptrend

/-- The bytes `fwrite( image + ptrstart, len, 1, stdout )` sends out. -/
def fwriteBytes (image : Ram) (ptrstart len : Nat) : List Nat :=
  (List.range len).map (fun i => image (ptrstart + i))

/-- Observable effect of `HandleOtherCSRWrite`. -/
structure CsrWrite where
  out : List Out
  reads : List Nat

/-- `HandleOtherCSRWrite( image, csrno, value )` with `ram_amt` the size of
`image` and `imageOffset` the value of `MINIRV32_RAM_IMAGE_OFFSET`. -/
def HandleOtherCSRWrite (imageOffset : Nat) (image : Ram) (ram_amt : Nat)
    (csrno value : Nat) : CsrWrite :=
  let o1 : List Out := if csrno = 0x136 then [Out.dec value] else []
  if csrno = 0x137 then ⟨o1 ++ [Out.hex value], []⟩
  else if csrno = 0x138 then
    let ptrstart := toU32 ((value : Int) - (imageOffset : Int))
    let o2 : List Out := if ptrstart ≥ ram_amt then [Out.invalidPtr value] else []
    let scan := scanString image ram_amt ptrstart []
    let ptrend := scan.1
    if ptrend ≠ ptrstart then
      ⟨o1 ++ o2 ++ [Out.bytes (fwriteBytes image ptrstart (ptrend - ptrstart))],
        scan.2 ++ (List.range (ptrend - ptrstart)).map (fun i => ptrstart + i)⟩
    else ⟨o1 ++ o2, scan.2⟩
  else if csrno = 0x139 then ⟨o1 ++ [Out.char (value % 256)], []⟩
  else ⟨o1, []⟩

/-! ## What the C file takes from the headers -/

/-- The declarations of `mini-rv32ima.h` and `default64mbdtc.h` used by
`mini-rv32ima.c`, taken as parameters: the value of `MINIRV32_RAM_IMAGE_OFFSET`,
`sizeof( struct MiniRV32IMAState )`, the byte offsets of the fields `regs`,
`pc`, `cyclel` (immediately followed by `cycleh`) and `extraflags` inside the
struct, and the bytes of the table `default64mbdtb`. -/
structure Platform where
  MINIRV32_RAM_IMAGE_OFFSET : Nat
  sizeofState : Nat
  regsOff : Nat
  pcOff : Nat
  cyclelOff : Nat
  extraflagsOff : Nat
  default64mbdtb : List Nat

/-- Well-formedness of the header data: the image offset is a 32-bit constant,
the fields lie inside the struct and do not overlap, and the default DTB is
long enough to contain the 32-bit cell at offset 0x13c. -/
structure Platform.WF (p : Platform) : Prop where
  offset_lt : p.MINIRV32_RAM_IMAGE_OFFSET < 4294967296
  size_lt : p.sizeofState < 4294967296
  regs_in : p.regsOff + 128 ≤ p.sizeofState
  pc_in : p.pcOff + 4 ≤ p.sizeofState
  cycle_in : p.cyclelOff + 8 ≤ p.sizeofState
  extraflags_in : p.extraflagsOff + 4 ≤ p.sizeofState
  pc_regs : p.pcOff + 4 ≤ p.regsOff ∨ p.regsOff + 128 ≤ p.pcOff
  extraflags_regs : p.extraflagsOff + 4 ≤ p.regsOff ∨ p.regsOff + 128 ≤ p.extraflagsOff
  extraflags_pc : p.extraflagsOff + 4 ≤ p.pcOff ∨ p.pcOff + 4 ≤ p.extraflagsOff
  dtb_cell : 0x140 ≤ p.default64mbdtb.length

/-- The global configuration set by the `setram`, `cmdline`, `dtb` and `image`
commands: `ram_amt`, the `kernel_command_line` buffer, `customDTB` (with
`dtbLen` its length; `none` is `NULL`) and `rv32imaKernel` (with
`rv32imaKernelLen` its length; `none` is `NULL`). -/
structure Config where
  ram_amt : Nat
  kernel_command_line : List Nat
  customDTB : Option (List Nat)
  rv32imaKernel : Option (List Nat)

/-! ## Byte-level RAM operations -/

/-- `memcpy( ram_image + dst, src, len )` with `len` the length of `src`. -/
def memcpy (ram : Ram) (dst : Nat) (src : List Nat) : Ram :=
  fun a => if dst ≤ a ∧ a < dst + src.length then src.getD (a - dst) 0 else ram a

/-- The C string held in a character buffer: the bytes before the first NUL. -/
def cstr (buf : List Nat) : List Nat := buf.takeWhile (fun ch => ch ≠ 0)

/-- `strncpy( ram_image + dst, src, n )`: the string, then NUL padding up to
`n` bytes. -/
def strncpy (ram : Ram) (dst : Nat) (src : List Nat) (n : Nat) : Ram :=
  fun a => if dst ≤ a ∧ a < dst + n then (cstr src).getD (a - dst) 0 else ram a

/-- Little-endian 32-bit load at byte offset `a`. -/
def load32 (ram : Ram) (a : Nat) : Nat :=
  ram a + 256 * ram (a + 1) + 65536 * ram (a + 2) + 16777216 * ram (a + 3)

/-- Little-endian 32-bit store of `v` (truncated to 32 bits) at byte offset `a`. -/
def store32 (ram : Ram) (a v : Nat) : Ram :=
  fun i =>
    if i = a then v % 256
    else if i = a + 1 then v / 256 % 256
    else if i = a + 2 then v / 65536 % 256
    else if i = a + 3 then v / 16777216 % 256
    else ram i

/-- Little-endian 64-bit load (`*(uint64_t*)`). -/
def load64 (ram : Ram) (a : Nat) : Nat :=
  load32 ram a + 4294967296 * load32 ram (a + 4)

/-- Little-endian 64-bit store. -/
def store64 (ram : Ram) (a v : Nat) : Ram :=
  store32 (store32 ram a (v % 4294967296)) (a + 4) (v / 4294967296 % 4294967296)

/-- An access of `len` bytes at `ram_image + off` stays inside the buffer. -/
def inBuf (ram_amt : Nat) (off : Int) (len : Nat) : Prop :=
  0 ≤ off ∧ off + (len : Int) ≤ (ram_amt : Int)

instance (ram_amt : Nat) (off : Int) (len : Nat) : Decidable (inBuf ram_amt off len) := by
  unfold inBuf; infer_instance

/-! ## `emulator`: loading, entry registers, DTB patch -/

/-- Ways in which the set-up does not reach the step loop: the two reported
errors of the `restart:` block, and an access outside `ram_image`. -/
inductive Fault
  | cannotFitKernel
  | cannotFitDtb
  | outOfBounds
  deriving DecidableEq, Repr

/-- The part of the state of `emulator` that the set-up code works on:
`ram_image` and the function-scope variable `dtb_ptr`. -/
structure Emu where
  ram : Ram
  dtb_ptr : Int

/-- The block after `restart:` (lines 174-200).  `dtb_ptr` is the current value
of the function-scope variable; the custom-DTB branch declares a new local
`int dtb_ptr` and leaves the function-scope one untouched. -/
def restartBlock (p : Platform) (c : Config) (kernel : List Nat) (dtb_ptr : Int) :
    Except Fault Emu :=
  let ram0 : Ram := fun _ => 0
  if kernel.length > c.ram_amt then .error .cannotFitKernel
  else
    let ram1 := memcpy ram0 0 kernel
    match c.customDTB with
    | some dtb =>
      let inner : Int :=
        toInt32 ((c.ram_amt : Int) - (dtb.length : Int) - (p.sizeofState : Int))
      if (dtb.length + kernel.length) % 4294967296 + p.sizeofState > c.ram_amt then
        .error .cannotFitDtb
      else if inBuf c.ram_amt inner dtb.length then
        .ok ⟨memcpy ram1 inner.toNat dtb, dtb_ptr⟩
      else .error .outOfBounds
    | none =>
      let outer : Int :=
        toInt32 ((c.ram_amt : Int) - (p.default64mbdtb.length : Int) - (p.sizeofState : Int))
      if inBuf c.ram_amt outer p.default64mbdtb.length then
        let ram2 := memcpy ram1 outer.toNat p.default64mbdtb
        if c.kernel_command_line.headD 0 ≠ 0 then
          if inBuf c.ram_amt (outer + 0xc0) 54 then
            .ok ⟨strncpy ram2 (outer + 0xc0).toNat c.kernel_command_line 54, outer⟩
          else .error .outOfBounds
        else .ok ⟨ram2, outer⟩
      else .error .outOfBounds

/-- Offset of `core` in `ram_image`: `ram_amt - sizeof( struct MiniRV32IMAState )`. -/
def coreOff (p : Platform) (c : Config) : Nat := c.ram_amt - p.sizeofState

/-- Lines 204-209: the entry registers. -/
def initCore (p : Platform) (c : Config) (e : Emu) : Except Fault Emu :=
  if p.sizeofState ≤ c.ram_amt then
    let core := coreOff p c
    let ram1 := store32 e.ram (core + p.pcOff) p.MINIRV32_RAM_IMAGE_OFFSET
    let ram2 := store32 ram1 (core + p.regsOff + 4 * 10) 0
    let ram3 := store32 ram2 (core + p.regsOff + 4 * 11)
      (if e.dtb_ptr ≠ 0 then toU32 (e.dtb_ptr + (p.MINIRV32_RAM_IMAGE_OFFSET : Int)) else 0)
    let ram4 := store32 ram3 (core + p.extraflagsOff)
      (load32 ram3 (core + p.extraflagsOff) ||| 3)
    .ok { e with ram := ram4 }
  else .error .outOfBounds

/-- The expression written to the RAM-size cell:
`(v>>24) | (((v>>16)&0xff)<<8) | (((v>>8)&0xff)<<16) | ((v&0xff)<<24)` in
`uint32_t` arithmetic. -/
def swapExpr (validram : Nat) : Nat :=
  ((validram >>> 24) ||| (((validram >>> 16) &&& 0xff) <<< 8)
    ||| (((validram >>> 8) &&& 0xff) <<< 16) ||| ((validram &&& 0xff) <<< 24)) % 4294967296

/-- Lines 211-221: the RAM-size patch of the default DTB (`dtb[0x13c/4]` is the
32-bit word at byte offset `dtb_ptr + 0x13c`). -/
def patchDtb (c : Config) (e : Emu) : Except Fault Emu :=
  match c.customDTB with
  | some _ => .ok e
  | none =>
    if inBuf c.ram_amt (e.dtb_ptr + 0x13c) 4 then
      let cell := (e.dtb_ptr + 0x13c).toNat
      if load32 e.ram cell = 0x00c0ff03 then
        let validram := toU32 e.dtb_ptr
        .ok { e with ram := store32 e.ram cell (swapExpr validram) }
      else .ok e
    else .error .outOfBounds

/-- One reset: everything `emulator` does from `restart:` up to the step loop
(`CaptureKeyboardInput` is empty; the keyboard task is not part of the model). -/
def reset (p : Platform) (c : Config) (kernel : List Nat) (dtb_ptr : Int) :
    Except Fault Emu :=
  match restartBlock p c kernel dtb_ptr with
  | .error f => .error f
  | .ok e1 =>
    match initCore p c e1 with
    | .error f => .error f
    | .ok e2 => patchDtb c e2

/-! ## `emulator`: the step loop

`MiniRV32IMAStep` is defined in `mini-rv32ima.h`; the loop is run against the
list of results of its successive calls, each result being the returned status
and the contents of `ram_image` after the call.  The locals `single_step`,
`do_sleep`, `fixed_update` and `time_divisor` keep their initial values
(0, 1, 0, 1), so `instrs_per_flip` is 1024 and `DumpState` is not called before
a step; `lastTime` and `elapsedUs` only feed the `elapsedUs` argument of the
call and are left out, as is the creation of the keyboard task. -/

/-- Calls and console messages of `rv32ima_run` / `emulator`, in order. -/
inductive Event
  | printNoKernel
  | printCannotFitKernel
  | printCannotFitDtb
  | MiniRV32IMAStep
  | MiniSleep
  | printPoweroff (cycleh cyclel : Nat)
  | printUnknownFailure
  | DumpState
  | emulatorReturn (value : Int)
  deriving DecidableEq, Repr

/-- Variables of `emulator` that are live in the step loop. -/
structure Loop where
  ram : Ram
  dtb_ptr : Int
  instct : Int
  rt : Nat
  trace : List Event

/-- Where a run of the command stands: `stepping` is the point just before a
call of `MiniRV32IMAStep` (the loop test has succeeded), `returned` is after
the command has returned, `undefined` is after an access outside `ram_image`. -/
inductive Run
  | stepping (s : Loop)
  | returned (trace : List Event)
  | undefined (trace : List Event)

/-- Events so far. -/
def Run.trace : Run → List Event
  | .stepping s => s.trace
  | .returned t => t
  | .undefined t => t

/-- Conversion to `uint64_t`. -/
def toU64 (z : Int) : Nat := (z % 18446744073709551616).toNat

/-- The loop test `rt < instct+1 || instct < 0` (`rt` is `uint64_t`, `instct`
is `long long`, the comparison is done in `uint64_t`). -/
def loopTest (rt : Nat) (instct : Int) : Bool :=
  decide (rt < toU64 (instct + 1)) || decide (instct < 0)

/-- The label `end_emulation`. -/
def endEmulation (s : Loop) : Run :=
  .returned (s.trace ++ [Event.DumpState, Event.emulatorReturn 0])

/-- Evaluation of the loop test. -/
def forTest (s : Loop) : Run :=
  if loopTest s.rt s.instct then .stepping s else endEmulation s

/-- The increment `rt += instrs_per_flip` followed by the loop test. -/
def forNext (s : Loop) : Run :=
  forTest { s with rt := (s.rt + 1024) % 18446744073709551616 }

/-- Entry at `restart:` followed by the loop initialisation `rt = 0`. -/
def restart (p : Platform) (c : Config) (kernel : List Nat)
    (dtb_ptr : Int) (instct : Int) (trace : List Event) : Run :=
  match reset p c kernel dtb_ptr with
  | .error .cannotFitKernel =>
    .returned (trace ++ [Event.printCannotFitKernel, Event.emulatorReturn (-1)])
  | .error .cannotFitDtb =>
    .returned (trace ++ [Event.printCannotFitDtb, Event.emulatorReturn (-1)])
  | .error .outOfBounds => .undefined trace
  | .ok e => forTest ⟨e.ram, e.dtb_ptr, instct, 0, trace⟩

/-- The loop body from the return of `MiniRV32IMAStep` on: `ret` is the value
returned by the call and `ram1` the contents of `ram_image` it left behind. -/
def afterStep (p : Platform) (c : Config) (kernel : List Nat)
    (s : Loop) (ret : Int) (ram1 : Ram) : Run :=
  let s1 : Loop := { s with ram := ram1, trace := s.trace ++ [Event.MiniRV32IMAStep] }
  let ccount := coreOff p c + p.cyclelOff
  if ret = 0 then forNext s1
  else if ret = 1 then
    forNext { s1 with
      ram := store64 ram1 ccount ((load64 ram1 ccount + 1024) % 18446744073709551616)
      trace := s1.trace ++ [Event.MiniSleep] }
  else if ret = 3 then forNext { s1 with instct := 0 }
  else if ret = 0x7777 then restart p c kernel s1.dtb_ptr s1.instct s1.trace
  else if ret = 0x5555 then
    endEmulation { s1 with
      trace := s1.trace ++ [Event.printPoweroff (load32 ram1 (ccount + 4)) (load32 ram1 ccount)] }
  else endEmulation { s1 with trace := s1.trace ++ [Event.printUnknownFailure] }

/-- Reaction of a run to the next result of `MiniRV32IMAStep`; a run that has
returned calls nothing any more. -/
def Run.feed (p : Platform) (c : Config) (kernel : List Nat) (r : Run) (x : Int × Ram) : Run :=
  match r with
  | .stepping s => afterStep p c kernel s x.1 x.2
  | .returned t => .returned t
  | .undefined t => .undefined t

/-- `emulator()`, run against the results of the successive calls of
`MiniRV32IMAStep` (return value and RAM contents left behind). -/
def emulator (p : Platform) (c : Config) (kernel : List Nat) (results : List (Int × Ram)) : Run :=
  results.foldl (Run.feed p c kernel) (restart p c kernel 0 (-1) [])

/-- `rv32ima_run`. -/
def rv32ima_run (p : Platform) (c : Config) (results : List (Int × Ram)) : Run :=
  match c.rv32imaKernel with
  | none => .returned [Event.printNoKernel]
  | some kernel => emulator p c kernel results

/-! ## A concrete platform for evaluating the model -/

/-- A 0x140-byte device tree stand-in: the FDT magic, zero padding, and the
RAM-size sentinel `03 ff c0 00` at offset 0x13c. -/
def sampleDtb : List Nat :=
  [0xd0, 0x0d, 0xfe, 0xed] ++ List.replicate 0x138 0 ++ [0x03, 0xff, 0xc0, 0x00]

/-- The layout of upstream `mini-rv32ima.h` (`regs[32]`, `pc`, `mstatus`,
`cyclel`, `cycleh`, ..., `extraflags`; 48 words) with `sampleDtb` in the place
of `default64mbdtb`. -/
def samplePlatform : Platform where
  MINIRV32_RAM_IMAGE_OFFSET := 0x80000000
  sizeofState := 192
  regsOff := 0
  pcOff := 128
  cyclelOff := 136
  extraflagsOff := 188
  default64mbdtb := sampleDtb

/-- Byte of `ram_image` at offset `a` when the next call of `MiniRV32IMAStep`
is about to be made. -/
def Run.byteAt (r : Run) (a : Nat) : Option Nat :=
  match r with
  | .stepping s => some (s.ram a)
  | _ => none

/-- The state carried by a successful stage, with an all-zero state standing
in for a failed one. -/
def getEmu (x : Except Fault Emu) : Emu :=
  match x with
  | .ok e => e
  | .error _ => ⟨fun _ => 0, 0⟩

/-- The loop state of a run that is about to call `MiniRV32IMAStep`. -/
def Run.loop? : Run → Option Loop
  | .stepping s => some s
  | _ => none

/-- Byte reversal of a 32-bit value: the word whose bytes, from least to most
significant, are the bytes of `v` from most to least significant. -/
def byteSwap32 (v : Nat) : Nat :=
  v / 16777216 % 256 + 256 * (v / 65536 % 256) + 65536 * (v / 256 % 256) + 16777216 * (v % 256)

/-- A default-DTB configuration on the sample platform: 1 KiB of RAM, a
16-byte kernel. -/
def sampleDefaultCfg : Config := ⟨0x400, [], none, some (List.replicate 16 0x13)⟩

/-- A custom-DTB configuration on the sample platform: 1 KiB of RAM, a
16-byte kernel and an 8-byte DTB. -/
def sampleCustomCfg : Config :=
  ⟨0x400, [], some [0xd0, 0x0d, 0xfe, 0xed, 0, 0, 0, 8], some (List.replicate 16 0x13)⟩

/-- A default-DTB configuration on the sample platform in which the DTB and
the state fit in RAM (320 + 192 bytes of 1024) but not beside the 1000-byte
kernel. -/
def sampleOverlapCfg : Config := ⟨0x400, [], none, some (List.replicate 1000 0x13)⟩

/-- Number of calls of `MiniRV32IMAStep` since the last reset: the number of
results after the last one with status 0x7777. -/
def callsSinceReset (results : List (Int × Ram)) : Nat :=
  results.foldl (fun n x => if x.1 = 0x7777 then 0 else n + 1) 0

/-- Invariant of the step loop while no status 3 has been seen: `instct` is
still -1, `rt` is 1024 times the number `n` of calls since the last reset,
modulo 2^64, and a reset entered with the current `dtb_ptr` succeeds with the
same result as the initial reset. -/
def LoopInv (p : Platform) (c : Config) (kernel : List Nat) (n : Nat) (r : Run) : Prop :=
  ∀ s, r = .stepping s →
    s.instct = -1 ∧ s.rt = (1024 * n) % 18446744073709551616 ∧
    ∃ e, reset p c kernel 0 = .ok e ∧ reset p c kernel s.dtb_ptr = .ok e

/-- The RAM contents left by the initial reset of the custom-DTB sample
configuration. -/
def sampleRam : Ram :=
  (getEmu (reset samplePlatform sampleCustomCfg (List.replicate 16 0x13) 0)).ram

/-! ## Facts about the string scan -/

theorem scanString_spec (image : Ram) (n : Nat) (p : Nat) (reads : List Nat) :
    p ≤ (scanString image n p reads).1 ∧
    (p ≤ n → (scanString image n p reads).1 ≤ n) ∧
    (n ≤ p → (scanString image n p reads).1 = p) ∧
    (∀ a, p ≤ a → a < (scanString image n p reads).1 → image a ≠ 0) ∧
    ((scanString image n p reads).1 < n → image (scanString image n p reads).1 = 0) ∧
    (∀ a ∈ (scanString image n p reads).2, a ∈ reads ∨ a < n) := by
  induction p, reads using scanString.induct image n with
  | case1 p reads hlt hz =>
    rw [scanString, if_pos hlt, if_pos hz]
    refine ⟨le_refl _, fun _ => le_of_lt hlt, fun h => absurd hlt (by omega), ?_, fun _ => hz, ?_⟩
    · intro a h1 h2; omega
    · intro a ha
      rcases List.mem_append.1 ha with h | h
      · exact Or.inl h
      · right; simp at h; omega
  | case2 p reads hlt hz ih =>
    rw [scanString, if_pos hlt, if_neg hz]
    obtain ⟨i1, i2, _, i4, i5, i6⟩ := ih
    refine ⟨by omega, fun _ => i2 (by omega), fun h => absurd hlt (by omega), ?_, i5, ?_⟩
    · intro a h1 h2
      by_cases hap : a = p
      · subst hap; exact hz
      · exact i4 a (by omega) h2
    · intro a ha
      rcases i6 a ha with h | h
      · rcases List.mem_append.1 h with h | h
        · exact Or.inl h
        · right; simp at h; omega
      · exact Or.inr h
  | case3 p reads hge =>
    rw [scanString, if_neg hge]
    refine ⟨le_refl _, fun h => h, fun _ => rfl, ?_, fun h => absurd h hge, fun a ha => Or.inl ha⟩
    intro a h1 h2; omega


/-! ## Facts about the RAM operations -/

theorem store32_outside (ram : Ram) (a v i : Nat) (h : i < a ∨ a + 4 ≤ i) :
    store32 ram a v i = ram i := by
  unfold store32
  have h0 : i ≠ a := by omega
  have h1 : i ≠ a + 1 := by omega
  have h2 : i ≠ a + 2 := by omega
  have h3 : i ≠ a + 3 := by omega
  simp [h0, h1, h2, h3]

theorem load32_store32_same (ram : Ram) (a v : Nat) :
    load32 (store32 ram a v) a = v % 4294967296 := by
  unfold load32 store32
  simp
  omega

theorem load32_store32_disjoint (ram : Ram) (a v b : Nat) (h : b + 4 ≤ a ∨ a + 4 ≤ b) :
    load32 (store32 ram a v) b = load32 ram b := by
  unfold load32
  rw [store32_outside ram a v b (by omega), store32_outside ram a v (b + 1) (by omega),
    store32_outside ram a v (b + 2) (by omega), store32_outside ram a v (b + 3) (by omega)]

theorem or_three_mod_four (x : Nat) : (x ||| 3) % 4 = 3 := by
  apply Nat.eq_of_testBit_eq
  intro i
  have h3 : (3 : Nat).testBit i = decide (i < 2) := Nat.testBit_two_pow_sub_one 2 i
  have hm : ((x ||| 3) % 4).testBit i = (decide (i < 2) && (x ||| 3).testBit i) :=
    Nat.testBit_mod_two_pow (x ||| 3) 2 i
  rw [hm, Nat.testBit_or, h3]
  cases decide (i < 2) <;> simp

/-- After a successful `restartBlock` with the default DTB, `dtb_ptr` is
`ram_amt - sizeof(default64mbdtb) - sizeof(state)` whenever the state fits. -/
theorem restartBlock_default_dtb_ptr (p : Platform) (hp : p.WF) (c : Config)
    (kernel : List Nat) (d : Int) (e : Emu) (hram : c.ram_amt < 4294967296)
    (hc : c.customDTB = none) (hsz : p.sizeofState ≤ c.ram_amt)
    (h : restartBlock p c kernel d = .ok e) :
    p.default64mbdtb.length + p.sizeofState ≤ c.ram_amt ∧
    e.dtb_ptr = ((c.ram_amt - p.default64mbdtb.length - p.sizeofState : Nat) : Int) := by
  have hs := hp.size_lt
  unfold restartBlock at h
  simp only [hc] at h
  split at h
  · cases h
  · have key : ∀ o : Int,
        o = toInt32 ((c.ram_amt : Int) - (p.default64mbdtb.length : Int) - (p.sizeofState : Int)) →
        inBuf c.ram_amt o p.default64mbdtb.length →
        p.default64mbdtb.length + p.sizeofState ≤ c.ram_amt ∧
        o = ((c.ram_amt - p.default64mbdtb.length - p.sizeofState : Nat) : Int) := by
      intro o ho hb
      unfold inBuf at hb
      unfold toInt32 at ho
      split at ho <;> omega
    split at h
    · rename_i hb
      have k := key _ rfl hb
      split at h
      · split at h
        · cases h; exact k
        · cases h
      · cases h; exact k
    · cases h

theorem or_shifted (a b i : Nat) (h : b < 2 ^ i) : b ||| a <<< i = 2 ^ i * a + b := by
  rw [Nat.or_comm, Nat.shiftLeft_eq, Nat.mul_comm a, ← Nat.mul_add_lt_is_or h]

/-- The C expression of the patch is the byte reversal of its 32-bit argument. -/
theorem swapExpr_eq_byteSwap32 (v : Nat) (hv : v < 4294967296) : swapExpr v = byteSwap32 v := by
  unfold swapExpr byteSwap32
  have e1 : v >>> 24 = v / 16777216 := Nat.shiftRight_eq_div_pow v 24
  have e2 : (v >>> 16) &&& 0xff = v / 65536 % 256 := by
    rw [Nat.shiftRight_eq_div_pow]; exact Nat.and_pow_two_sub_one_eq_mod _ 8
  have e3 : (v >>> 8) &&& 0xff = v / 256 % 256 := by
    rw [Nat.shiftRight_eq_div_pow]; exact Nat.and_pow_two_sub_one_eq_mod _ 8
  have e4 : v &&& 0xff = v % 256 := Nat.and_pow_two_sub_one_eq_mod _ 8
  rw [e1, e2, e3, e4]
  have s1 : v / 16777216 ||| (v / 65536 % 256) <<< 8
      = 256 * (v / 65536 % 256) + v / 16777216 :=
    or_shifted (v / 65536 % 256) (v / 16777216) 8 (by show v / 16777216 < 256; omega)
  rw [s1]
  have s2 : (256 * (v / 65536 % 256) + v / 16777216) ||| (v / 256 % 256) <<< 16
      = 65536 * (v / 256 % 256) + (256 * (v / 65536 % 256) + v / 16777216) :=
    or_shifted (v / 256 % 256) _ 16
      (by show 256 * (v / 65536 % 256) + v / 16777216 < 65536; omega)
  rw [s2]
  have s3 : (65536 * (v / 256 % 256) + (256 * (v / 65536 % 256) + v / 16777216))
      ||| (v % 256) <<< 24
      = 16777216 * (v % 256)
        + (65536 * (v / 256 % 256) + (256 * (v / 65536 % 256) + v / 16777216)) :=
    or_shifted (v % 256) _ 24
      (by show 65536 * (v / 256 % 256) + (256 * (v / 65536 % 256) + v / 16777216) < 16777216
          omega)
  rw [s3]
  have h0 : v % 256 < 256 := Nat.mod_lt _ (by decide)
  have h1 : v / 256 % 256 < 256 := Nat.mod_lt _ (by decide)
  have h2 : v / 65536 % 256 < 256 := Nat.mod_lt _ (by decide)
  have h3 : v / 16777216 < 256 := by omega
  clear e1 e2 e3 e4 s1 s2 s3
  generalize v % 256 = b0 at *
  generalize v / 256 % 256 = b1 at *
  generalize v / 65536 % 256 = b2 at *
  generalize v / 16777216 = b3 at *
  omega

theorem byteSwap32_bytes (v : Nat) :
    byteSwap32 v % 256 = v / 16777216 % 256 ∧
    byteSwap32 v / 256 % 256 = v / 65536 % 256 ∧
    byteSwap32 v / 65536 % 256 = v / 256 % 256 ∧
    byteSwap32 v / 16777216 % 256 = v % 256 := by
  unfold byteSwap32
  have h0 : v % 256 < 256 := Nat.mod_lt _ (by decide)
  have h1 : v / 256 % 256 < 256 := Nat.mod_lt _ (by decide)
  have h2 : v / 65536 % 256 < 256 := Nat.mod_lt _ (by decide)
  have h3 : v / 16777216 % 256 < 256 := Nat.mod_lt _ (by decide)
  generalize v % 256 = b0 at *
  generalize v / 256 % 256 = b1 at *
  generalize v / 65536 % 256 = b2 at *
  generalize v / 16777216 % 256 = b3 at *
  refine ⟨?_, ?_, ?_, ?_⟩ <;> omega

theorem toU32_lt (z : Int) : toU32 z < 4294967296 := by
  unfold toU32
  omega

/-- What `initCore` leaves in RAM: the three entry registers, machine privilege
in the low bits of `extraflags`, and every byte outside the state struct as it
was. -/
theorem initCore_spec (p : Platform) (hp : p.WF) (c : Config) (e1 e2 : Emu)
    (h : initCore p c e1 = .ok e2) :
    p.sizeofState ≤ c.ram_amt ∧ e2.dtb_ptr = e1.dtb_ptr ∧
    load32 e2.ram (coreOff p c + p.pcOff) = p.MINIRV32_RAM_IMAGE_OFFSET ∧
    load32 e2.ram (coreOff p c + p.regsOff + 4 * 10) = 0 ∧
    load32 e2.ram (coreOff p c + p.regsOff + 4 * 11) =
      (if e1.dtb_ptr ≠ 0 then toU32 (e1.dtb_ptr + (p.MINIRV32_RAM_IMAGE_OFFSET : Int)) else 0) ∧
    load32 e2.ram (coreOff p c + p.extraflagsOff) % 4 = 3 ∧
    (∀ a, a < coreOff p c ∨ coreOff p c + p.sizeofState ≤ a → e2.ram a = e1.ram a) := by
  have h1 := hp.offset_lt
  have h2 := hp.regs_in
  have h3 := hp.pc_in
  have h4 := hp.extraflags_in
  have h5 := hp.pc_regs
  have h6 := hp.extraflags_regs
  have h7 := hp.extraflags_pc
  unfold initCore at h
  split at h
  · rename_i hsz
    injection h with h
    subst h
    refine ⟨hsz, rfl, ?_, ?_, ?_, ?_, ?_⟩
    · simp only
      rw [load32_store32_disjoint _ _ _ _ (by omega), load32_store32_disjoint _ _ _ _ (by omega),
        load32_store32_disjoint _ _ _ _ (by omega), load32_store32_same]
      omega
    · simp only
      rw [load32_store32_disjoint _ _ _ _ (by omega), load32_store32_disjoint _ _ _ _ (by omega),
        load32_store32_same]
    · simp only
      rw [load32_store32_disjoint _ _ _ _ (by omega), load32_store32_same]
      split
      · exact Nat.mod_eq_of_lt (toU32_lt _)
      · rfl
    · simp only
      rw [load32_store32_same]
      have := or_three_mod_four
        (load32 (store32 (store32 (store32 e1.ram (coreOff p c + p.pcOff)
          p.MINIRV32_RAM_IMAGE_OFFSET) (coreOff p c + p.regsOff + 4 * 10) 0)
          (coreOff p c + p.regsOff + 4 * 11)
          (if e1.dtb_ptr ≠ 0 then toU32 (e1.dtb_ptr + (p.MINIRV32_RAM_IMAGE_OFFSET : Int)) else 0))
          (coreOff p c + p.extraflagsOff))
      omega
    · intro a ha
      simp only
      rw [store32_outside _ _ _ _ (by omega), store32_outside _ _ _ _ (by omega),
        store32_outside _ _ _ _ (by omega), store32_outside _ _ _ _ (by omega)]
  · cases h

/-- The patch stage: with a custom DTB nothing changes; with the default DTB
the state is unchanged unless the cell holds the sentinel, in which case only
the cell is stored to. -/
theorem patchDtb_spec (c : Config) (e2 e3 : Emu) (h : patchDtb c e2 = .ok e3) :
    e3.dtb_ptr = e2.dtb_ptr ∧
    (c.customDTB ≠ none → e3 = e2) ∧
    (c.customDTB = none →
      inBuf c.ram_amt (e2.dtb_ptr + 0x13c) 4 ∧
      (load32 e2.ram (e2.dtb_ptr + 0x13c).toNat = 0x00c0ff03 →
        e3.ram = store32 e2.ram (e2.dtb_ptr + 0x13c).toNat (swapExpr (toU32 e2.dtb_ptr))) ∧
      (load32 e2.ram (e2.dtb_ptr + 0x13c).toNat ≠ 0x00c0ff03 → e3 = e2)) := by
  unfold patchDtb at h
  split at h
  · rename_i d hd
    injection h with h
    subst h
    exact ⟨rfl, fun _ => rfl, fun hn => by simp [hn] at hd⟩
  · rename_i hd
    split at h
    · rename_i hb
      simp only at h
      split at h
      · rename_i hs
        injection h with h
        subst h
        exact ⟨rfl, fun hn => absurd hd hn, fun _ => ⟨hb, fun _ => rfl, fun hn => absurd hs hn⟩⟩
      · rename_i hs
        injection h with h
        subst h
        exact ⟨rfl, fun _ => rfl, fun _ => ⟨hb, fun hn => absurd hn hs, fun _ => rfl⟩⟩
    · cases h

/-- The three stages of a successful reset. -/
theorem reset_stages (p : Platform) (c : Config) (kernel : List Nat) (d : Int) (e : Emu)
    (h : reset p c kernel d = .ok e) :
    ∃ e1 e2, restartBlock p c kernel d = .ok e1 ∧ initCore p c e1 = .ok e2 ∧
      patchDtb c e2 = .ok e := by
  unfold reset at h
  split at h
  · cases h
  · rename_i e1 h1
    split at h
    · cases h
    · rename_i e2 h2
      exact ⟨e1, e2, h1, h2, h⟩

set_option maxRecDepth 100000 in
theorem samplePlatform_wf : samplePlatform.WF := by
  constructor <;> decide

theorem restart_stepping (p : Platform) (c : Config) (kernel : List Nat)
    (d i : Int) (t : List Event) (s : Loop)
    (h : restart p c kernel d i t = .stepping s) :
    ∃ e, reset p c kernel d = .ok e ∧ s = ⟨e.ram, e.dtb_ptr, i, 0, t⟩ := by
  unfold restart at h
  split at h
  · cases h
  · cases h
  · cases h
  · rename_i e he
    unfold forTest at h
    split at h
    · injection h with h
      exact ⟨e, he, h.symm⟩
    · unfold endEmulation at h
      cases h

/-! ## Entry registers -/

/-- The entry registers after a successful reset. -/
theorem reset_core_fields (p : Platform) (hp : p.WF) (c : Config) (kernel : List Nat)
    (d : Int) (e : Emu) (hram : c.ram_amt < 4294967296)
    (h : reset p c kernel d = .ok e) :
    load32 e.ram (coreOff p c + p.pcOff) = p.MINIRV32_RAM_IMAGE_OFFSET ∧
    load32 e.ram (coreOff p c + p.regsOff + 4 * 10) = 0 ∧
    load32 e.ram (coreOff p c + p.extraflagsOff) % 4 = 3 := by
  obtain ⟨e1, e2, h1, h2, h3⟩ := reset_stages p c kernel d e h
  obtain ⟨hsz, hd2, i1, i2, _, i4, _⟩ := initCore_spec p hp c e1 e2 h2
  obtain ⟨_, q1, q2⟩ := patchDtb_spec c e2 e h3
  by_cases hc : c.customDTB = none
  · obtain ⟨hb, qs, qn⟩ := q2 hc
    by_cases hs : load32 e2.ram (e2.dtb_ptr + 0x13c).toNat = 0x00c0ff03
    · obtain ⟨k1, k2⟩ := restartBlock_default_dtb_ptr p hp c kernel d e1 hram hc hsz h1
      have hcell := hp.dtb_cell
      have h2' := hp.regs_in
      have h3' := hp.pc_in
      have h4' := hp.extraflags_in
      have hco : coreOff p c = c.ram_amt - p.sizeofState := rfl
      rw [qs hs, hd2, k2]
      have ht : (((c.ram_amt - p.default64mbdtb.length - p.sizeofState : Nat) : Int) + 0x13c).toNat
          = c.ram_amt - p.default64mbdtb.length - p.sizeofState + 0x13c := by omega
      rw [ht]
      rw [load32_store32_disjoint _ _ _ _ (by omega), load32_store32_disjoint _ _ _ _ (by omega),
        load32_store32_disjoint _ _ _ _ (by omega)]
      exact ⟨i1, i2, i4⟩
    · rw [qn hs]; exact ⟨i1, i2, i4⟩
  · rw [q1 hc]; exact ⟨i1, i2, i4⟩

/-- C2: for every reset performed by `emulator` (the initial one or one after
status 0x7777, whatever the values of `dtb_ptr`, `instct` and the trace on
entry) that reaches the step loop, for every `ram_amt`, kernel and DTB choice,
when `MiniRV32IMAStep` is about to be called `pc` equals
`MINIRV32_RAM_IMAGE_OFFSET`, `regs[10]` equals 0 and the low two bits of
`extraflags` equal 3. -/
theorem reset_entry_registers (p : Platform) (hp : p.WF) (c : Config) (kernel : List Nat)
    (d i : Int) (t : List Event) (s : Loop) (hram : c.ram_amt < 4294967296)
    (h : restart p c kernel d i t = .stepping s) :
    load32 s.ram (coreOff p c + p.pcOff) = p.MINIRV32_RAM_IMAGE_OFFSET ∧
    load32 s.ram (coreOff p c + p.regsOff + 4 * 10) = 0 ∧
    load32 s.ram (coreOff p c + p.extraflagsOff) % 4 = 3 := by
  obtain ⟨e, he, rfl⟩ := restart_stepping p c kernel d i t s h
  exact reset_core_fields p hp c kernel d e hram he

set_option maxRecDepth 100000 in
/-- Witness for C2: the default-DTB sample configuration. -/
theorem reset_entry_registers_witness :
    load32 (getEmu (reset samplePlatform sampleDefaultCfg (List.replicate 16 0x13) 0)).ram
      (0x400 - 192 + 128) = 0x80000000 ∧
    load32 (getEmu (reset samplePlatform sampleDefaultCfg (List.replicate 16 0x13) 0)).ram
      (0x400 - 192 + 0 + 4 * 10) = 0 ∧
    load32 (getEmu (reset samplePlatform sampleDefaultCfg (List.replicate 16 0x13) 0)).ram
      (0x400 - 192 + 188) % 4 = 3 :=
  reset_entry_registers samplePlatform samplePlatform_wf sampleDefaultCfg
    (List.replicate 16 0x13) 0 (-1) []
    ⟨(getEmu (reset samplePlatform sampleDefaultCfg (List.replicate 16 0x13) 0)).ram,
     (getEmu (reset samplePlatform sampleDefaultCfg (List.replicate 16 0x13) 0)).dtb_ptr,
     -1, 0, []⟩ (by decide) rfl

/-! ## The DTB address handed to the guest -/

/-- After a successful `restartBlock` with a custom DTB, the function-scope
`dtb_ptr` still has the value it had on entry, and the DTB bytes lie at offset
`ram_amt - sizeof(state) - dtbLen`. -/
theorem restartBlock_custom_spec (p : Platform) (hp : p.WF) (c : Config)
    (kernel dtb : List Nat) (d : Int) (e : Emu) (hram : c.ram_amt < 4294967296)
    (hc : c.customDTB = some dtb) (h : restartBlock p c kernel d = .ok e) :
    e.dtb_ptr = d ∧ dtb.length + p.sizeofState ≤ c.ram_amt ∧
    (∀ i, i < dtb.length →
      e.ram (c.ram_amt - p.sizeofState - dtb.length + i) = dtb.getD i 0) := by
  have hs := hp.size_lt
  unfold restartBlock at h
  simp only [hc] at h
  split at h
  · cases h
  · split at h
    · cases h
    · rename_i hfit
      split at h
      · rename_i hb
        injection h with h
        subst h
        have key : ∀ o : Int,
            o = toInt32 ((c.ram_amt : Int) - (dtb.length : Int) - (p.sizeofState : Int)) →
            inBuf c.ram_amt o dtb.length →
            dtb.length + p.sizeofState ≤ c.ram_amt ∧
            o.toNat = c.ram_amt - p.sizeofState - dtb.length := by
          intro o ho hb
          unfold inBuf at hb
          unfold toInt32 at ho
          split at ho <;> omega
        obtain ⟨k1, k2⟩ := key _ rfl hb
        refine ⟨rfl, k1, ?_⟩
        intro i hi
        simp only [k2]
        unfold memcpy
        have hcond : c.ram_amt - p.sizeofState - dtb.length ≤
            c.ram_amt - p.sizeofState - dtb.length + i ∧
            c.ram_amt - p.sizeofState - dtb.length + i <
            c.ram_amt - p.sizeofState - dtb.length + dtb.length := by omega
        rw [if_pos hcond]
        congr 1
        omega
      · cases h

/-- With a custom DTB, a successful reset entered with `dtb_ptr = 0` leaves
`regs[11]` and `dtb_ptr` equal to 0 and the DTB bytes at offset
`ram_amt - sizeof(state) - dtbLen`. -/
theorem reset_custom_a1 (p : Platform) (hp : p.WF) (c : Config)
    (kernel dtb : List Nat) (e : Emu) (hram : c.ram_amt < 4294967296)
    (hc : c.customDTB = some dtb) (h : reset p c kernel 0 = .ok e) :
    load32 e.ram (coreOff p c + p.regsOff + 4 * 11) = 0 ∧
    e.dtb_ptr = 0 ∧
    dtb.length + p.sizeofState ≤ c.ram_amt ∧
    (∀ j, j < dtb.length →
      e.ram (c.ram_amt - p.sizeofState - dtb.length + j) = dtb.getD j 0) := by
  obtain ⟨e1, e2, h1, h2, h3⟩ := reset_stages p c kernel 0 e h
  obtain ⟨k0, k1, k2⟩ := restartBlock_custom_spec p hp c kernel dtb 0 e1 hram hc h1
  obtain ⟨hsz, hd2, -, -, i3, -, i5⟩ := initCore_spec p hp c e1 e2 h2
  obtain ⟨-, q1, -⟩ := patchDtb_spec c e2 e h3
  have hne : c.customDTB ≠ none := by rw [hc]; simp
  rw [q1 hne]
  refine ⟨?_, by rw [hd2, k0], k1, ?_⟩
  · rw [i3, k0]; simp
  · intro j hj
    rw [i5 _ (Or.inl (by unfold coreOff; omega))]
    exact k2 j hj

/-- With the default DTB, a successful reset leaves in `regs[11]` the guest
address `MINIRV32_RAM_IMAGE_OFFSET + d` of the DTB, where
`d = ram_amt - sizeof(default64mbdtb) - sizeof(state)`, unless `d = 0`. -/
theorem reset_default_a1 (p : Platform) (hp : p.WF) (c : Config)
    (kernel : List Nat) (d0 : Int) (e : Emu) (hram : c.ram_amt < 4294967296)
    (hc : c.customDTB = none) (h : reset p c kernel d0 = .ok e) :
    load32 e.ram (coreOff p c + p.regsOff + 4 * 11) =
      (if c.ram_amt - p.default64mbdtb.length - p.sizeofState ≠ 0 then
        (p.MINIRV32_RAM_IMAGE_OFFSET
          + (c.ram_amt - p.default64mbdtb.length - p.sizeofState)) % 4294967296
       else 0) := by
  obtain ⟨e1, e2, h1, h2, h3⟩ := reset_stages p c kernel d0 e h
  obtain ⟨hsz, hd2, -, -, i3, -, -⟩ := initCore_spec p hp c e1 e2 h2
  obtain ⟨k1, k2⟩ := restartBlock_default_dtb_ptr p hp c kernel d0 e1 hram hc hsz h1
  obtain ⟨-, -, q2⟩ := patchDtb_spec c e2 e h3
  obtain ⟨-, qs, qn⟩ := q2 hc
  have hcell := hp.dtb_cell
  have h2' := hp.regs_in
  have hco : coreOff p c = c.ram_amt - p.sizeofState := rfl
  have hval : load32 e2.ram (coreOff p c + p.regsOff + 4 * 11) =
      (if c.ram_amt - p.default64mbdtb.length - p.sizeofState ≠ 0 then
        (p.MINIRV32_RAM_IMAGE_OFFSET
          + (c.ram_amt - p.default64mbdtb.length - p.sizeofState)) % 4294967296
       else 0) := by
    rw [i3, k2]
    by_cases hz : c.ram_amt - p.default64mbdtb.length - p.sizeofState = 0
    · simp [hz]
    · have hz2 : ((c.ram_amt - p.default64mbdtb.length - p.sizeofState : Nat) : Int) ≠ 0 := by
        omega
      rw [if_pos hz2, if_pos hz]
      unfold toU32
      omega
  by_cases hs : load32 e2.ram (e2.dtb_ptr + 0x13c).toNat = 0x00c0ff03
  · rw [qs hs, hd2, k2]
    have ht : (((c.ram_amt - p.default64mbdtb.length - p.sizeofState : Nat) : Int) + 0x13c).toNat
        = c.ram_amt - p.default64mbdtb.length - p.sizeofState + 0x13c := by omega
    rw [ht, load32_store32_disjoint _ _ _ _ (by omega)]
    exact hval
  · rw [qn hs]; exact hval

/-- C1: with a custom DTB, whenever the initial reset of `emulator` reaches
the step loop, the DTB bytes lie at RAM offset
`d = ram_amt - sizeof(state) - dtbLen` but `regs[11]` (a1) is 0, not
`MINIRV32_RAM_IMAGE_OFFSET + d`; the function-scope `dtb_ptr` is still 0, so
the same holds after every later reset. -/
theorem custom_dtb_a1_is_zero (p : Platform) (hp : p.WF) (c : Config)
    (kernel dtb : List Nat) (i : Int) (t : List Event) (s : Loop)
    (hram : c.ram_amt < 4294967296) (hc : c.customDTB = some dtb)
    (h : restart p c kernel 0 i t = .stepping s) :
    load32 s.ram (coreOff p c + p.regsOff + 4 * 11) = 0 ∧
    s.dtb_ptr = 0 ∧
    dtb.length + p.sizeofState ≤ c.ram_amt ∧
    (∀ j, j < dtb.length →
      s.ram (c.ram_amt - p.sizeofState - dtb.length + j) = dtb.getD j 0) := by
  obtain ⟨e, he, rfl⟩ := restart_stepping p c kernel 0 i t s h
  exact reset_custom_a1 p hp c kernel dtb e hram hc he

/-- Witness for C1: the custom-DTB sample configuration; the 8-byte DTB lies
at offset 0x400 - 192 - 8 = 824 and a1 is 0, while the guest address of the
DTB is 0x80000000 + 824. -/
theorem custom_dtb_a1_is_zero_witness :
    load32 sampleRam (0x400 - 192 + 0 + 4 * 11) = 0 ∧
    sampleRam 824 = 0xd0 ∧ sampleRam 825 = 0x0d ∧
    (0x80000000 + 824) % 4294967296 ≠ 0 :=
  ⟨(custom_dtb_a1_is_zero samplePlatform samplePlatform_wf sampleCustomCfg
      (List.replicate 16 0x13) [0xd0, 0x0d, 0xfe, 0xed, 0, 0, 0, 8] (-1) []
      ⟨sampleRam, 0, -1, 0, []⟩ (by decide) rfl rfl).1,
   by decide, by decide, by decide⟩

/-! ## The default DTB is loaded without a fit check -/

theorem toInt32_of_small (v : Nat) (h : v < 2147483648) : toInt32 (v : Int) = (v : Int) := by
  unfold toInt32
  split <;> omega

/-- With the default DTB, `restartBlock` succeeds whenever the kernel fits in
RAM and the DTB and state fit in RAM, whether or not the DTB fits beside the
kernel; the first DTB byte then lies at offset
`ram_amt - sizeof(default64mbdtb) - sizeof(state)`. -/
theorem restartBlock_default_ok (p : Platform) (hp : p.WF) (c : Config)
    (kernel : List Nat) (d : Int) (hram : c.ram_amt < 2147483648)
    (hc : c.customDTB = none) (hk : kernel.length ≤ c.ram_amt)
    (hfit : p.default64mbdtb.length + p.sizeofState ≤ c.ram_amt) :
    ∃ e, restartBlock p c kernel d = .ok e ∧
      e.dtb_ptr = ((c.ram_amt - p.default64mbdtb.length - p.sizeofState : Nat) : Int) ∧
      e.ram (c.ram_amt - p.default64mbdtb.length - p.sizeofState) = p.default64mbdtb.getD 0 0 := by
  have hcell := hp.dtb_cell
  have ho : toInt32 ((c.ram_amt : Int) - (p.default64mbdtb.length : Int) - (p.sizeofState : Int))
      = ((c.ram_amt - p.default64mbdtb.length - p.sizeofState : Nat) : Int) := by
    rw [← toInt32_of_small _ (by omega : c.ram_amt - p.default64mbdtb.length - p.sizeofState
      < 2147483648)]
    congr 1
    omega
  generalize hv : c.ram_amt - p.default64mbdtb.length - p.sizeofState = v at ho ⊢
  have hb1 : inBuf c.ram_amt (v : Int) p.default64mbdtb.length := by
    unfold inBuf; omega
  have hb2 : inBuf c.ram_amt ((v : Int) + 0xc0) 54 := by
    unfold inBuf; omega
  have ht : ((v : Int) + 0xc0).toNat = v + 0xc0 := by omega
  have hbyte : memcpy (memcpy (fun _ => 0) 0 kernel) v p.default64mbdtb v
      = p.default64mbdtb.getD 0 0 := by
    unfold memcpy
    rw [if_pos (by omega : v ≤ v ∧ v < v + p.default64mbdtb.length)]
    simp
  unfold restartBlock
  simp only [hc, ho]
  rw [if_neg (by omega : ¬ kernel.length > c.ram_amt), if_pos hb1]
  by_cases hcmd : c.kernel_command_line.headD 0 ≠ 0
  · rw [if_pos hcmd, if_pos hb2]
    refine ⟨_, rfl, rfl, ?_⟩
    simp only [ht, Int.toNat_ofNat]
    unfold strncpy
    rw [if_neg (by omega)]
    exact hbyte
  · rw [if_neg hcmd]
    refine ⟨_, rfl, rfl, ?_⟩
    simp only [Int.toNat_ofNat]
    exact hbyte

/-- With the default DTB, a reset succeeds whenever the kernel fits in RAM and
the DTB and state fit in RAM; the byte at offset
`ram_amt - sizeof(default64mbdtb) - sizeof(state)` is then the first DTB byte. -/
theorem reset_default_ok (p : Platform) (hp : p.WF) (c : Config)
    (kernel : List Nat) (d : Int) (hram : c.ram_amt < 2147483648)
    (hc : c.customDTB = none) (hk : kernel.length ≤ c.ram_amt)
    (hfit : p.default64mbdtb.length + p.sizeofState ≤ c.ram_amt) :
    ∃ e, reset p c kernel d = .ok e ∧
      e.ram (c.ram_amt - p.default64mbdtb.length - p.sizeofState) = p.default64mbdtb.getD 0 0 := by
  have hcell := hp.dtb_cell
  obtain ⟨e1, h1, hd1, hb1⟩ := restartBlock_default_ok p hp c kernel d hram hc hk hfit
  have h2 : ∃ e2, initCore p c e1 = .ok e2 := by
    unfold initCore
    rw [if_pos (by omega : p.sizeofState ≤ c.ram_amt)]
    exact ⟨_, rfl⟩
  obtain ⟨e2, h2⟩ := h2
  obtain ⟨-, hd2, -, -, -, -, i5⟩ := initCore_spec p hp c e1 e2 h2
  have hin : inBuf c.ram_amt (e2.dtb_ptr + 0x13c) 4 := by
    rw [hd2, hd1]; unfold inBuf; omega
  have ht : (e2.dtb_ptr + 0x13c).toNat
      = c.ram_amt - p.default64mbdtb.length - p.sizeofState + 0x13c := by
    rw [hd2, hd1]; omega
  have h3 : ∃ e3, patchDtb c e2 = .ok e3 := by
    unfold patchDtb
    simp only [hc]
    rw [if_pos hin]
    by_cases hs : load32 e2.ram (e2.dtb_ptr + 0x13c).toNat = 0x00c0ff03
    · simp only [hs, if_true]; exact ⟨_, rfl⟩
    · simp only [hs, if_false]; exact ⟨_, rfl⟩
  obtain ⟨e3, h3⟩ := h3
  obtain ⟨-, -, q2⟩ := patchDtb_spec c e2 e3 h3
  obtain ⟨-, qs, qn⟩ := q2 hc
  refine ⟨e3, ?_, ?_⟩
  · unfold reset
    simp only [h1, h2, h3]
  · have hpre : e2.ram (c.ram_amt - p.default64mbdtb.length - p.sizeofState)
        = p.default64mbdtb.getD 0 0 := by
      rw [i5 _ (Or.inl (by unfold coreOff; omega))]; exact hb1
    by_cases hs : load32 e2.ram (e2.dtb_ptr + 0x13c).toNat = 0x00c0ff03
    · rw [qs hs, ht, store32_outside _ _ _ _ (by omega)]; exact hpre
    · rw [qn hs]; exact hpre

theorem loopTest_initial : loopTest 0 (-1) = true := by decide

/-- With the default DTB, `emulator` reaches the first call of
`MiniRV32IMAStep` with nothing printed whenever the kernel fits in RAM and the
DTB and state fit in RAM. -/
theorem emulator_default_starts (p : Platform) (hp : p.WF) (c : Config)
    (kernel : List Nat) (hram : c.ram_amt < 2147483648)
    (hc : c.customDTB = none) (hk : kernel.length ≤ c.ram_amt)
    (hfit : p.default64mbdtb.length + p.sizeofState ≤ c.ram_amt) :
    ∃ s, emulator p c kernel [] = .stepping s ∧ s.trace = [] ∧
      s.ram (c.ram_amt - p.default64mbdtb.length - p.sizeofState)
        = p.default64mbdtb.getD 0 0 := by
  obtain ⟨e, he, hb⟩ := reset_default_ok p hp c kernel 0 hram hc hk hfit
  refine ⟨⟨e.ram, e.dtb_ptr, -1, 0, []⟩, ?_, rfl, hb⟩
  unfold emulator
  simp only [List.foldl_nil]
  unfold restart
  simp only [he]
  unfold forTest
  simp only [loopTest_initial, if_true]

theorem forTest_trace_mem (s : Loop) (ev : Event) (h : ev ∈ s.trace) :
    ev ∈ (forTest s).trace := by
  unfold forTest
  split
  · exact h
  · unfold endEmulation
    simp only [Run.trace]
    exact List.mem_append_left _ h

/-- Whatever `MiniRV32IMAStep` returns, the call is on record afterwards. -/
theorem afterStep_trace_mem (p : Platform) (c : Config) (kernel : List Nat)
    (s : Loop) (ret : Int) (ram1 : Ram) :
    Event.MiniRV32IMAStep ∈ (afterStep p c kernel s ret ram1).trace := by
  have hm : Event.MiniRV32IMAStep ∈ s.trace ++ [Event.MiniRV32IMAStep] := by simp
  unfold afterStep
  simp only
  split
  · exact forTest_trace_mem _ _ hm
  · split
    · exact forTest_trace_mem _ _ (List.mem_append_left _ hm)
    · split
      · exact forTest_trace_mem _ _ hm
      · split
        · unfold restart
          split
          · simp [Run.trace]
          · simp [Run.trace]
          · simp [Run.trace]
          · exact forTest_trace_mem _ _ hm
        · split
          · unfold endEmulation; simp [Run.trace]
          · unfold endEmulation; simp [Run.trace]

/-- C3: with the default DTB there is no fit check: whenever the kernel fits
in RAM and the default DTB and the state fit in RAM, whether or not the DTB
fits beside the kernel, `rv32ima_run` prints no error, reaches the step loop
and calls `MiniRV32IMAStep`. -/
theorem default_dtb_fit_not_checked (p : Platform) (hp : p.WF) (c : Config)
    (kernel : List Nat) (hram : c.ram_amt < 2147483648)
    (hc : c.customDTB = none) (hkern : c.rv32imaKernel = some kernel)
    (hk : kernel.length ≤ c.ram_amt)
    (hfit : p.default64mbdtb.length + p.sizeofState ≤ c.ram_amt) :
    (rv32ima_run p c []).loop?.map (fun s => s.trace) = some [] ∧
    (∀ x, Event.MiniRV32IMAStep ∈ (rv32ima_run p c [x]).trace) := by
  obtain ⟨s, hs, ht, -⟩ := emulator_default_starts p hp c kernel hram hc hk hfit
  constructor
  · unfold rv32ima_run
    simp only [hkern, hs, Run.loop?, Option.map, ht]
  · intro x
    unfold rv32ima_run
    simp only [hkern]
    unfold emulator at hs ⊢
    simp only [List.foldl_cons, List.foldl_nil] at hs ⊢
    rw [hs]
    exact afterStep_trace_mem p c kernel s x.1 x.2

set_option maxRecDepth 100000 in
/-- Witness for C3: 1 KiB of RAM, a 1000-byte kernel and the 320-byte sample
DTB. -/
theorem default_dtb_fit_not_checked_witness :
    (List.replicate 1000 0x13).length + samplePlatform.default64mbdtb.length
      + samplePlatform.sizeofState > sampleOverlapCfg.ram_amt ∧
    (rv32ima_run samplePlatform sampleOverlapCfg []).loop?.map (fun s => s.trace) = some [] :=
  ⟨by decide,
   (default_dtb_fit_not_checked samplePlatform samplePlatform_wf sampleOverlapCfg
      (List.replicate 1000 0x13) (by decide) rfl rfl (by decide) (by decide)).1⟩

/-- C4: with the default DTB, whenever the kernel fits in RAM and the DTB and
the state fit in RAM but the DTB does not fit beside the kernel, the RAM byte
at offset `ram_amt - sizeof(default64mbdtb) - sizeof(state)`, which lies inside
`[0, kernel_len)`, is the first DTB byte when the first `MiniRV32IMAStep` is
called, not the kernel byte at that offset. -/
theorem default_dtb_overwrites_kernel (p : Platform) (hp : p.WF) (c : Config)
    (kernel : List Nat) (hram : c.ram_amt < 2147483648)
    (hc : c.customDTB = none) (hkern : c.rv32imaKernel = some kernel)
    (hk : kernel.length ≤ c.ram_amt)
    (hfit : p.default64mbdtb.length + p.sizeofState ≤ c.ram_amt)
    (hover : kernel.length + p.default64mbdtb.length + p.sizeofState > c.ram_amt)
    (hdiff : kernel.getD (c.ram_amt - p.default64mbdtb.length - p.sizeofState) 0
      ≠ p.default64mbdtb.getD 0 0) :
    c.ram_amt - p.default64mbdtb.length - p.sizeofState < kernel.length ∧
    (rv32ima_run p c []).byteAt (c.ram_amt - p.default64mbdtb.length - p.sizeofState)
      = some (p.default64mbdtb.getD 0 0) ∧
    (rv32ima_run p c []).byteAt (c.ram_amt - p.default64mbdtb.length - p.sizeofState)
      ≠ some (kernel.getD (c.ram_amt - p.default64mbdtb.length - p.sizeofState) 0) := by
  obtain ⟨s, hs, -, hb⟩ := emulator_default_starts p hp c kernel hram hc hk hfit
  have hrun : (rv32ima_run p c []).byteAt (c.ram_amt - p.default64mbdtb.length - p.sizeofState)
      = some (p.default64mbdtb.getD 0 0) := by
    unfold rv32ima_run
    simp only [hkern, hs, Run.byteAt, hb]
  refine ⟨by omega, hrun, ?_⟩
  rw [hrun]
  intro h
  injection h with h
  exact hdiff h.symm

set_option maxRecDepth 100000 in
/-- Witness for C4: 1 KiB of RAM, a 1000-byte kernel of bytes 0x13 and the
320-byte sample DTB; offset 512 holds the DTB magic byte 0xd0. -/
theorem default_dtb_overwrites_kernel_witness :
    (512 : Nat) < (List.replicate 1000 0x13).length ∧
    (List.replicate 1000 0x13).getD 512 0 = 0x13 ∧
    (rv32ima_run samplePlatform sampleOverlapCfg []).byteAt 512 = some 0xd0 :=
  ⟨by decide, by decide,
   (default_dtb_overwrites_kernel samplePlatform samplePlatform_wf sampleOverlapCfg
      (List.replicate 1000 0x13) (by decide) rfl rfl (by decide) (by decide) (by decide)
      (by decide)).2.1⟩

/-! ## The step loop -/

theorem loopTest_of_neg (rt : Nat) (instct : Int) (h : instct < 0) :
    loopTest rt instct = true := by
  unfold loopTest
  simp [h]

theorem loopTest_after_error (rt : Nat) (h : 1 ≤ rt) : loopTest rt 0 = false := by
  unfold loopTest toU64
  simp
  omega

theorem initCore_dtb_ptr (p : Platform) (c : Config) (e1 e2 : Emu)
    (h : initCore p c e1 = .ok e2) : e2.dtb_ptr = e1.dtb_ptr := by
  unfold initCore at h
  split at h
  · injection h with h; subst h; rfl
  · cases h

theorem restartBlock_default_indep (p : Platform) (c : Config) (kernel : List Nat)
    (d1 d2 : Int) (hc : c.customDTB = none) :
    restartBlock p c kernel d1 = restartBlock p c kernel d2 := by
  unfold restartBlock
  simp only [hc]

theorem restartBlock_custom_dtb_ptr (p : Platform) (c : Config) (kernel dtb : List Nat)
    (d : Int) (e : Emu) (hc : c.customDTB = some dtb)
    (h : restartBlock p c kernel d = .ok e) : e.dtb_ptr = d := by
  unfold restartBlock at h
  simp only [hc] at h
  split at h
  · cases h
  · split at h
    · cases h
    · split at h
      · injection h with h; subst h; rfl
      · cases h

/-- A reset entered with the `dtb_ptr` left by a successful reset gives the
same result again. -/
theorem reset_again (p : Platform) (c : Config) (kernel : List Nat) (d : Int) (e : Emu)
    (h : reset p c kernel d = .ok e) : reset p c kernel e.dtb_ptr = .ok e := by
  cases hc : c.customDTB with
  | none =>
    have : reset p c kernel e.dtb_ptr = reset p c kernel d := by
      unfold reset
      rw [restartBlock_default_indep p c kernel e.dtb_ptr d hc]
    rw [this, h]
  | some dtb =>
    obtain ⟨e1, e2, h1, h2, h3⟩ := reset_stages p c kernel d e h
    have k1 := restartBlock_custom_dtb_ptr p c kernel dtb d e1 hc h1
    have k2 := initCore_dtb_ptr p c e1 e2 h2
    have k3 := (patchDtb_spec c e2 e h3).1
    have : e.dtb_ptr = d := by rw [k3, k2, k1]
    rw [this, h]

/-- How the loop body reacts to each status, from a state in which `instct` is
still -1; the reaction to status 3 is given for the case that the increment of
`rt` does not wrap to 0. -/
theorem afterStep_spec (p : Platform) (c : Config) (kernel : List Nat) (s : Loop)
    (ret : Int) (ram1 : Ram) (e : Emu)
    (hi : s.instct = -1)
    (he : reset p c kernel s.dtb_ptr = .ok e) :
    (ret = 0 → afterStep p c kernel s ret ram1 =
      .stepping { s with ram := ram1, rt := (s.rt + 1024) % 18446744073709551616,
                         trace := s.trace ++ [Event.MiniRV32IMAStep] }) ∧
    (ret = 1 → afterStep p c kernel s ret ram1 =
      .stepping { s with
        ram := store64 ram1 (coreOff p c + p.cyclelOff)
          ((load64 ram1 (coreOff p c + p.cyclelOff) + 1024) % 18446744073709551616),
        rt := (s.rt + 1024) % 18446744073709551616,
        trace := s.trace ++ [Event.MiniRV32IMAStep, Event.MiniSleep] }) ∧
    (ret = 0x7777 → afterStep p c kernel s ret ram1 =
      .stepping ⟨e.ram, e.dtb_ptr, -1, 0, s.trace ++ [Event.MiniRV32IMAStep]⟩) ∧
    (ret = 3 → (s.rt + 1024) % 18446744073709551616 ≠ 0 →
      afterStep p c kernel s ret ram1 =
        .returned (s.trace ++ [Event.MiniRV32IMAStep, Event.DumpState,
          Event.emulatorReturn 0])) ∧
    (ret = 0x5555 → afterStep p c kernel s ret ram1 =
      .returned (s.trace ++ [Event.MiniRV32IMAStep,
        Event.printPoweroff (load32 ram1 (coreOff p c + p.cyclelOff + 4))
          (load32 ram1 (coreOff p c + p.cyclelOff)),
        Event.DumpState, Event.emulatorReturn 0])) ∧
    (ret ≠ 0 → ret ≠ 1 → ret ≠ 3 → ret ≠ 0x7777 → ret ≠ 0x5555 →
      afterStep p c kernel s ret ram1 =
        .returned (s.trace ++ [Event.MiniRV32IMAStep, Event.printUnknownFailure,
          Event.DumpState, Event.emulatorReturn 0])) := by
  have hneg : s.instct < 0 := by omega
  refine ⟨?_, ?_, ?_, ?_, ?_, ?_⟩
  · intro h
    subst h
    simp [afterStep, forNext, forTest, loopTest_of_neg _ _ hneg]
  · intro h
    subst h
    simp [afterStep, forNext, forTest, loopTest_of_neg _ _ hneg]
  · intro h
    subst h
    simp [afterStep, restart, he, forTest, hi, loopTest_initial]
  · intro h hw
    subst h
    have hstop := loopTest_after_error ((s.rt + 1024) % 18446744073709551616) (by omega)
    simp [afterStep, forNext, forTest, hstop, endEmulation]
  · intro h
    subst h
    simp [afterStep, endEmulation]
  · intro h0 h1 h3 h7 h5
    simp [afterStep, endEmulation, h0, h1, h3, h7, h5]

theorem loopInv_start (p : Platform) (c : Config) (kernel : List Nat) :
    LoopInv p c kernel 0 (emulator p c kernel []) := by
  intro s hs
  unfold emulator at hs
  simp only [List.foldl_nil] at hs
  obtain ⟨e, he, rfl⟩ := restart_stepping p c kernel 0 (-1) [] s hs
  exact ⟨rfl, by simp, e, he, reset_again p c kernel 0 e he⟩

theorem loopInv_feed (p : Platform) (c : Config) (kernel : List Nat) (n : Nat)
    (r : Run) (x : Int × Ram) (hx : x.1 ≠ 3)
    (hr : LoopInv p c kernel n r) :
    LoopInv p c kernel (if x.1 = 0x7777 then 0 else n + 1) (Run.feed p c kernel r x) := by
  intro s2 hs2
  cases r with
  | returned t => simp [Run.feed] at hs2
  | undefined t => simp [Run.feed] at hs2
  | stepping s =>
    obtain ⟨hi, hrt, e, he0, hed⟩ := hr s rfl
    obtain ⟨a0, a1, a7, -, a5, ao⟩ :=
      afterStep_spec p c kernel s x.1 x.2 e hi hed
    simp only [Run.feed] at hs2
    by_cases h0 : x.1 = 0
    · rw [a0 h0] at hs2
      injection hs2 with hs2
      subst hs2
      have h7 : ¬ x.1 = 0x7777 := by omega
      rw [if_neg h7]
      exact ⟨hi, by simp only; omega, e, he0, hed⟩
    by_cases h1 : x.1 = 1
    · rw [a1 h1] at hs2
      injection hs2 with hs2
      subst hs2
      have h7 : ¬ x.1 = 0x7777 := by omega
      rw [if_neg h7]
      exact ⟨hi, by simp only; omega, e, he0, hed⟩
    by_cases h7 : x.1 = 0x7777
    · rw [a7 h7] at hs2
      injection hs2 with hs2
      subst hs2
      rw [if_pos h7]
      exact ⟨rfl, by simp, e, he0, reset_again p c kernel 0 e he0⟩
    by_cases h5 : x.1 = 0x5555
    · rw [a5 h5] at hs2
      cases hs2
    · rw [ao h0 h1 hx h7 h5] at hs2
      cases hs2

theorem loopInv_foldl (p : Platform) (c : Config) (kernel : List Nat)
    (results : List (Int × Ram)) :
    ∀ (n : Nat) (r : Run), (∀ x ∈ results, x.1 ≠ 3) →
      LoopInv p c kernel n r →
      LoopInv p c kernel
        (results.foldl (fun k x => if x.1 = 0x7777 then 0 else k + 1) n)
        (results.foldl (Run.feed p c kernel) r) := by
  induction results with
  | nil => intro n r _ hr; simpa using hr
  | cons x xs ih =>
    intro n r hno hr
    have h1 := loopInv_feed p c kernel n r x (hno x (List.mem_cons_self _ _)) hr
    have h2 := ih _ _ (fun y hy => hno y (List.mem_cons_of_mem _ hy)) h1
    simpa only [List.foldl_cons] using h2

theorem foldl_feed_returned (p : Platform) (c : Config) (kernel : List Nat)
    (t : List Event) (more : List (Int × Ram)) :
    more.foldl (Run.feed p c kernel) (.returned t) = .returned t := by
  induction more with
  | nil => rfl
  | cons x xs ih => simpa [Run.feed] using ih

/-- The reactions of the step loop.  Let the loop be about to call
`MiniRV32IMAStep` after the results `results`, none of which has status 3 (a
status 3 either ends the run or, when `rt` wraps, leaves `instct` at 0), and
let the call return `ret` leaving RAM `ram1`.  On 0 the loop goes on to the
next batch; on 1 it calls `MiniSleep` once, adds 1024 to the 64-bit cycle
counter and goes on; on 0x7777 it performs the reset again (the RAM and
`dtb_ptr` are those of the initial reset) before the next call; on 3, unless
this is call number `k * 2^54` since the last reset, on 0x5555 and on any other
status it calls `MiniRV32IMAStep` no more, calls `DumpState` and returns
(printing the power-off or the unknown-failure message first in the last two
cases); and a run that has returned stays returned whatever further results
are supplied. -/
theorem loop_reacts_to_status (p : Platform) (c : Config) (kernel : List Nat)
    (results : List (Int × Ram)) (s : Loop) (ret : Int) (ram1 : Ram)
    (hno : ∀ x ∈ results, x.1 ≠ 3)
    (hs : emulator p c kernel results = .stepping s) :
    (ret = 0 → emulator p c kernel (results ++ [(ret, ram1)]) =
      .stepping { s with ram := ram1, rt := (s.rt + 1024) % 18446744073709551616,
                         trace := s.trace ++ [Event.MiniRV32IMAStep] }) ∧
    (ret = 1 → emulator p c kernel (results ++ [(ret, ram1)]) =
      .stepping { s with
        ram := store64 ram1 (coreOff p c + p.cyclelOff)
          ((load64 ram1 (coreOff p c + p.cyclelOff) + 1024) % 18446744073709551616),
        rt := (s.rt + 1024) % 18446744073709551616,
        trace := s.trace ++ [Event.MiniRV32IMAStep, Event.MiniSleep] }) ∧
    (ret = 0x7777 → ∃ e, reset p c kernel 0 = .ok e ∧
      emulator p c kernel [] = .stepping ⟨e.ram, e.dtb_ptr, -1, 0, []⟩ ∧
      emulator p c kernel (results ++ [(ret, ram1)]) =
        .stepping ⟨e.ram, e.dtb_ptr, -1, 0, s.trace ++ [Event.MiniRV32IMAStep]⟩) ∧
    (ret = 3 → (callsSinceReset results + 1) % 18014398509481984 ≠ 0 →
      emulator p c kernel (results ++ [(ret, ram1)]) =
        .returned (s.trace ++ [Event.MiniRV32IMAStep, Event.DumpState,
          Event.emulatorReturn 0])) ∧
    (ret = 0x5555 → emulator p c kernel (results ++ [(ret, ram1)]) =
      .returned (s.trace ++ [Event.MiniRV32IMAStep,
        Event.printPoweroff (load32 ram1 (coreOff p c + p.cyclelOff + 4))
          (load32 ram1 (coreOff p c + p.cyclelOff)),
        Event.DumpState, Event.emulatorReturn 0])) ∧
    (ret ≠ 0 → ret ≠ 1 → ret ≠ 3 → ret ≠ 0x7777 → ret ≠ 0x5555 →
      emulator p c kernel (results ++ [(ret, ram1)]) =
        .returned (s.trace ++ [Event.MiniRV32IMAStep, Event.printUnknownFailure,
          Event.DumpState, Event.emulatorReturn 0])) ∧
    (∀ t more, emulator p c kernel (results ++ [(ret, ram1)]) = .returned t →
      emulator p c kernel (results ++ [(ret, ram1)] ++ more) = .returned t) := by
  have hinv : LoopInv p c kernel (callsSinceReset results) (emulator p c kernel results) :=
    loopInv_foldl p c kernel results 0 (emulator p c kernel []) hno (loopInv_start p c kernel)
  obtain ⟨hi, hrt, e, he0, hed⟩ := hinv s hs
  have hstep : emulator p c kernel (results ++ [(ret, ram1)])
      = afterStep p c kernel s ret ram1 := by
    unfold emulator at hs ⊢
    rw [List.foldl_append, hs]
    rfl
  obtain ⟨a0, a1, a7, a3, a5, ao⟩ :=
    afterStep_spec p c kernel s ret ram1 e hi hed
  refine ⟨fun h => by rw [hstep, a0 h], fun h => by rw [hstep, a1 h], ?_,
    fun h hw => by rw [hstep, a3 h (by omega)], fun h => by rw [hstep, a5 h],
    fun h0 h1 h3 h7 h5 => by rw [hstep, ao h0 h1 h3 h7 h5], ?_⟩
  · intro h
    refine ⟨e, he0, ?_, by rw [hstep, a7 h]⟩
    unfold emulator
    simp only [List.foldl_nil]
    unfold restart
    simp only [he0]
    unfold forTest
    simp only [loopTest_initial, if_true]
  · intro t more ht
    unfold emulator at ht ⊢
    rw [List.foldl_append, ht]
    exact foldl_feed_returned p c kernel t more

/-- An instance of `loop_reacts_to_status`: on the custom-DTB sample
configuration the first call returns 3; the driver dumps the state and
returns. -/
theorem loop_reacts_to_status_sample :
    emulator samplePlatform sampleCustomCfg (List.replicate 16 0x13) ([] ++ [(3, sampleRam)]) =
      .returned [Event.MiniRV32IMAStep, Event.DumpState, Event.emulatorReturn 0] :=
  (loop_reacts_to_status samplePlatform sampleCustomCfg (List.replicate 16 0x13) []
    ⟨sampleRam, 0, -1, 0, []⟩ 3 sampleRam (by simp) rfl).2.2.2.1 rfl (by decide)

/-- C8: in every successful reset, with `e2` the state before the patch stage
and `e3` the state after it: with a custom DTB no byte is patched; when
the default DTB is in use (it is copied at offset
`v = ram_amt - sizeof(default64mbdtb) - sizeof(struct MiniRV32IMAState)`), the
32-bit cell at DTB offset 0x13c is rewritten if and only if it holds the
sentinel 0x00c0ff03; the word written is the byte reversal of `v` (the C
expression equals the byte reversal for every 32-bit argument), so the four
bytes of the cell are the big-endian encoding of `v`, and every other byte is
left unchanged. -/
theorem default_dtb_ram_size_patch (p : Platform) (hp : p.WF) (c : Config)
    (kernel : List Nat) (d : Int) (e1 e2 e3 : Emu) (hram : c.ram_amt < 4294967296)
    (h1 : restartBlock p c kernel d = .ok e1) (h2 : initCore p c e1 = .ok e2)
    (h3 : patchDtb c e2 = .ok e3) :
    (∀ w, w < 4294967296 → swapExpr w = byteSwap32 w) ∧
    (c.customDTB ≠ none → e3.ram = e2.ram) ∧
    (c.customDTB = none →
      p.default64mbdtb.length + p.sizeofState ≤ c.ram_amt ∧
      (load32 e2.ram (c.ram_amt - p.default64mbdtb.length - p.sizeofState + 0x13c) = 0x00c0ff03 →
        e3.ram (c.ram_amt - p.default64mbdtb.length - p.sizeofState + 0x13c)
          = (c.ram_amt - p.default64mbdtb.length - p.sizeofState) / 16777216 % 256 ∧
        e3.ram (c.ram_amt - p.default64mbdtb.length - p.sizeofState + 0x13c + 1)
          = (c.ram_amt - p.default64mbdtb.length - p.sizeofState) / 65536 % 256 ∧
        e3.ram (c.ram_amt - p.default64mbdtb.length - p.sizeofState + 0x13c + 2)
          = (c.ram_amt - p.default64mbdtb.length - p.sizeofState) / 256 % 256 ∧
        e3.ram (c.ram_amt - p.default64mbdtb.length - p.sizeofState + 0x13c + 3)
          = (c.ram_amt - p.default64mbdtb.length - p.sizeofState) % 256 ∧
        load32 e3.ram (c.ram_amt - p.default64mbdtb.length - p.sizeofState + 0x13c)
          = byteSwap32 (c.ram_amt - p.default64mbdtb.length - p.sizeofState) ∧
        (∀ a, a < c.ram_amt - p.default64mbdtb.length - p.sizeofState + 0x13c ∨
            c.ram_amt - p.default64mbdtb.length - p.sizeofState + 0x140 ≤ a →
          e3.ram a = e2.ram a)) ∧
      (load32 e2.ram (c.ram_amt - p.default64mbdtb.length - p.sizeofState + 0x13c) ≠ 0x00c0ff03 →
        e3.ram = e2.ram)) := by
  obtain ⟨hsz, hd2, -⟩ := initCore_spec p hp c e1 e2 h2
  obtain ⟨-, q1, q2⟩ := patchDtb_spec c e2 e3 h3
  refine ⟨swapExpr_eq_byteSwap32, fun hc => by rw [q1 hc], fun hc => ?_⟩
  obtain ⟨k1, k2⟩ := restartBlock_default_dtb_ptr p hp c kernel d e1 hram hc hsz h1
  obtain ⟨-, qs, qn⟩ := q2 hc
  rw [hd2, k2] at qs qn
  generalize hv : c.ram_amt - p.default64mbdtb.length - p.sizeofState = v at *
  have hvlt : v < 4294967296 := by omega
  have ht : ((v : Int) + 0x13c).toNat = v + 0x13c := by omega
  have hu : toU32 (v : Int) = v := by unfold toU32; omega
  rw [ht, hu, swapExpr_eq_byteSwap32 v hvlt] at qs
  rw [ht] at qn
  refine ⟨k1, fun hs => ?_, fun hs => by rw [qn hs]⟩
  rw [qs hs]
  have hb : byteSwap32 v < 4294967296 := by unfold byteSwap32; omega
  obtain ⟨y0, y1, y2, y3⟩ := byteSwap32_bytes v
  refine ⟨?_, ?_, ?_, ?_, ?_, ?_⟩
  · rw [← y0]; unfold store32; simp
  · rw [← y1]; unfold store32; simp
  · rw [← y2]; unfold store32; simp
  · rw [← y3]; unfold store32; simp
  · rw [load32_store32_same]; exact Nat.mod_eq_of_lt hb
  · intro a ha
    exact store32_outside _ _ _ _ (by omega)

set_option maxRecDepth 100000 in
/-- Witness for C8: on the sample platform with 1 KiB of RAM the default DTB
sits at offset 512 = 0x00000200 and its cell at 512 + 0x13c, which holds the
sentinel, is rewritten to the bytes 00 00 02 00. -/
theorem default_dtb_ram_size_patch_witness :
    (getEmu (patchDtb sampleDefaultCfg
      (getEmu (initCore samplePlatform sampleDefaultCfg
        (getEmu (restartBlock samplePlatform sampleDefaultCfg
          (List.replicate 16 0x13) 0)))))).ram (0x400 - 0x140 - 192 + 0x13c + 2) = 2 :=
  ((default_dtb_ram_size_patch samplePlatform samplePlatform_wf sampleDefaultCfg
    (List.replicate 16 0x13) 0 _ _ _ (by decide) rfl rfl rfl).2.2 rfl).2.1
    (by decide) |>.2.2.1

/-! ## The MMIO store callback -/

/-- C5 (counterexample): a store to the syscon address 0x1100BFF8 is not
recognised by `HandleControlStore`: for the values 0x5555 and 0x7777 it does
not return a non-zero result, and the `MINIRV32_HANDLE_MEM_STORE_CONTROL` hook
does not make the step return. -/
theorem HandleControlStore_syscon_not_signalled :
    ¬ ((HandleControlStore 0x1100BFF8 0x5555).1 ≠ 0) ∧
    ¬ ((HandleControlStore 0x1100BFF8 0x7777).1 ≠ 0) ∧
    storeControlHook 0x1100BFF8 0x5555 = none ∧
    storeControlHook 0x1100BFF8 0x7777 = none := by
  decide

/-- C5 (amended): `HandleControlStore` returns 0 for every address and value,
so the `MINIRV32_HANDLE_MEM_STORE_CONTROL` hook never makes the step return;
the only address it recognises is the UART data register 0x10000000, for which
it emits the low byte of `val` on the console, and it emits nothing otherwise. -/
theorem HandleControlStore_returns_zero (addy val : Nat) :
    (HandleControlStore addy val).1 = 0 ∧
    storeControlHook addy val = none ∧
    (HandleControlStore addy val).2 = (if addy = 0x10000000 then [val % 256] else []) := by
  have h : (HandleControlStore addy val).1 = 0 := by
    unfold HandleControlStore; split <;> rfl
  refine ⟨h, ?_, ?_⟩
  · unfold storeControlHook; rw [h]; rfl
  · unfold HandleControlStore; split <;> rfl

/-! ## The MMIO load callback -/

/-- The UART loads with `is_eofd` clear: a load from 0x10000005 returns
`0x60 | k` with `k = 1` when a byte is pending and `k = 0` otherwise (bits 5
and 6 are set in both cases) and leaves the buffer unchanged; a load from
0x10000000 returns the value of `KBbuf` converted to `uint32_t` (the byte
itself when `KBbuf` is non-negative) and marks the buffer empty when a byte is
pending, and returns 0 leaving the buffer unchanged when none is; a load from
any other address returns 0 and leaves the buffer unchanged. -/
theorem HandleControlLoad_uart (kb : KB) (h : kb.is_eofd = 0) :
    HandleControlLoad 0x10000005 kb = (0x60 ||| (if kb.hasKBBuf then 1 else 0), kb) ∧
    (HandleControlLoad 0x10000005 kb).1 &&& 0x60 = 0x60 ∧
    (kb.hasKBBuf = true →
      HandleControlLoad 0x10000000 kb = (toU32 kb.KBbuf, { kb with hasKBBuf := false })) ∧
    (kb.hasKBBuf = true → 0 ≤ kb.KBbuf → kb.KBbuf < 256 →
      ((HandleControlLoad 0x10000000 kb).1 : Int) = kb.KBbuf) ∧
    (kb.hasKBBuf = false → HandleControlLoad 0x10000000 kb = (0, kb)) ∧
    (∀ addy, addy ≠ 0x10000005 → addy ≠ 0x10000000 → HandleControlLoad addy kb = (0, kb)) := by
  obtain ⟨e, b, hk⟩ := kb
  simp only at h
  subst h
  have l0 : toU32 (Int.lor 0x60 0) = 0x60 := by decide
  have l1 : toU32 (Int.lor 0x60 1) = 0x61 := by decide
  cases hk
  · have h5 : HandleControlLoad 0x10000005 ⟨0, b, false⟩ = (0x60, ⟨0, b, false⟩) := by
      simp [HandleControlLoad, IsKBHit, l0]
    refine ⟨by rw [h5]; simp, by rw [h5]; exact (by decide : (96 : Nat) &&& 96 = 96), by simp, by simp, ?_, ?_⟩
    · intro _; simp [HandleControlLoad, IsKBHit]
    · intro addy h1 h2; simp [HandleControlLoad, h1, h2]
  · have h5 : HandleControlLoad 0x10000005 ⟨0, b, true⟩ = (0x61, ⟨0, b, true⟩) := by
      simp [HandleControlLoad, IsKBHit, l1]
    have h0 : HandleControlLoad 0x10000000 ⟨0, b, true⟩ = (toU32 b, ⟨0, b, false⟩) := by
      simp [HandleControlLoad, IsKBHit, ReadKBByte]
    refine ⟨by rw [h5]; simp, by rw [h5]; exact (by decide : (97 : Nat) &&& 96 = 96), fun _ => h0, ?_, by simp, ?_⟩
    · intro _ hb0 hb1
      rw [h0]
      simp only [toU32] at hb0 hb1 ⊢
      omega
    · intro addy h1 h2; simp [HandleControlLoad, h1, h2]

/-- An instance of `HandleControlLoad_uart`: a pending byte 0x41 with
`is_eofd` clear. -/
theorem HandleControlLoad_uart_sample :
    HandleControlLoad 0x10000005 ⟨0, 0x41, true⟩ = (0x61, ⟨0, 0x41, true⟩) ∧
    HandleControlLoad 0x10000000 ⟨0, 0x41, true⟩ = (0x41, ⟨0, 0x41, false⟩) :=
  ⟨(HandleControlLoad_uart ⟨0, 0x41, true⟩ rfl).1,
   (HandleControlLoad_uart ⟨0, 0x41, true⟩ rfl).2.2.1 rfl⟩

/-- With plain `char` signed, the input byte 0xFF is stored as `KBbuf = -1`,
and the read of CSR 0x140 then returns -1, the value that `ReadKBByte` and
`HandleOtherCSRRead` use for "no byte". -/
theorem HandleOtherCSRRead_byte_ff :
    (rv32ima_kbd true 255 false false ⟨0, 0, false⟩).KBbuf = -1 ∧
    (HandleOtherCSRRead 0x140 (rv32ima_kbd true 255 false false ⟨0, 0, false⟩)).1 = -1 ∧
    (HandleOtherCSRRead 0x140 ⟨0, 0, false⟩).1 = -1 := by
  decide

/-- C6: with `is_eofd` clear and plain `char` signed, the input task stores the
input byte 0xE9 (233) as `KBbuf = -23` and sets `hasKBBuf`; the load from
0x10000000 then marks the buffer empty but returns 0xFFFFFFE9 = 4294967273,
the sign-extended value, not the pending byte 233. -/
theorem HandleControlLoad_sign_extends_byte :
    (rv32ima_kbd true 233 false false ⟨0, 0, false⟩).is_eofd = 0 ∧
    (rv32ima_kbd true 233 false false ⟨0, 0, false⟩).KBbuf = -23 ∧
    (rv32ima_kbd true 233 false false ⟨0, 0, false⟩).hasKBBuf = true ∧
    (HandleControlLoad 0x10000000
      (rv32ima_kbd true 233 false false ⟨0, 0, false⟩)).2.hasKBBuf = false ∧
    (HandleControlLoad 0x10000000
      (rv32ima_kbd true 233 false false ⟨0, 0, false⟩)).1 = 4294967273 ∧
    (HandleControlLoad 0x10000000
      (rv32ima_kbd true 233 false false ⟨0, 0, false⟩)).1 ≠ 233 := by
  decide

/-! ## The debug string print -/

/-- C9: `HandleOtherCSRWrite` with `csrno` 0x138 is a total function (it
terminates); it reads `image` only at offsets below `ram_amt`; with
`p = (value - MINIRV32_RAM_IMAGE_OFFSET) mod 2^32` there is an end offset `e`
such that no byte in `[p, e)` is NUL, `e` is either the end of RAM or the
offset of a NUL byte, and the bytes sent to stdout are exactly the RAM bytes at
`[p, e)`; when `p >= ram_amt` only the invalid-pointer diagnostic is printed. -/
theorem HandleOtherCSRWrite_string_bounded (imageOffset : Nat) (image : Ram)
    (ram_amt value : Nat) :
    (∀ a ∈ (HandleOtherCSRWrite imageOffset image ram_amt 0x138 value).reads, a < ram_amt) ∧
    (∃ e, toU32 ((value : Int) - (imageOffset : Int)) ≤ e ∧
      (toU32 ((value : Int) - (imageOffset : Int)) ≤ ram_amt → e ≤ ram_amt) ∧
      (ram_amt ≤ toU32 ((value : Int) - (imageOffset : Int)) →
        e = toU32 ((value : Int) - (imageOffset : Int))) ∧
      (∀ a, toU32 ((value : Int) - (imageOffset : Int)) ≤ a → a < e → image a ≠ 0) ∧
      (e < ram_amt → image e = 0) ∧
      (HandleOtherCSRWrite imageOffset image ram_amt 0x138 value).out =
        (if ram_amt ≤ toU32 ((value : Int) - (imageOffset : Int))
          then [Out.invalidPtr value] else []) ++
        (if e = toU32 ((value : Int) - (imageOffset : Int)) then []
          else [Out.bytes ((List.range (e - toU32 ((value : Int) - (imageOffset : Int)))).map
            (fun i => image (toU32 ((value : Int) - (imageOffset : Int)) + i)))])) ∧
    (ram_amt ≤ toU32 ((value : Int) - (imageOffset : Int)) →
      (HandleOtherCSRWrite imageOffset image ram_amt 0x138 value).out =
        [Out.invalidPtr value]) := by
  generalize hp : toU32 ((value : Int) - (imageOffset : Int)) = p
  obtain ⟨s1, s2, s3, s4, s5, s6⟩ := scanString_spec image ram_amt p []
  have hout : (HandleOtherCSRWrite imageOffset image ram_amt 0x138 value).out =
      (if ram_amt ≤ p then [Out.invalidPtr value] else []) ++
      (if (scanString image ram_amt p []).1 = p then []
        else [Out.bytes ((List.range ((scanString image ram_amt p []).1 - p)).map
          (fun i => image (p + i)))]) := by
    simp only [HandleOtherCSRWrite, hp, fwriteBytes]
    by_cases he : (scanString image ram_amt p []).1 = p
    · simp [he]
    · simp [he]
  refine ⟨?_, ⟨(scanString image ram_amt p []).1, s1, s2, s3, s4, s5, hout⟩, ?_⟩
  · intro a ha
    simp only [HandleOtherCSRWrite, hp] at ha
    by_cases he : (scanString image ram_amt p []).1 = p
    · simp [he] at ha
      rcases s6 a ha with h | h
      · simp at h
      · exact h
    · simp [he] at ha
      rcases ha with h | ⟨i, hi, rfl⟩
      · rcases s6 a h with h | h
        · simp at h
        · exact h
      · by_cases hpn : p ≤ ram_amt
        · have := s2 hpn; omega
        · have := s3 (by omega); omega
  · intro hge
    rw [hout, if_pos hge, if_pos (s3 hge)]
    rfl

/-! ## The keyboard buffer protocol -/

/-- C10 (counterexample): a run of the input task at end of input, with a byte
still pending, changes `hasKBBuf` from true to false. -/
theorem rv32ima_kbd_clears_pending :
    (⟨0, 0x41, true⟩ : KB).hasKBBuf = true ∧
    (rv32ima_kbd true (-1) true false ⟨0, 0x41, true⟩).hasKBBuf = false := by
  decide

/-- C10 (amended): a run of the input task leaves `hasKBBuf` unchanged when
`rv32ima_task_should_exit` is set, and otherwise sets it to true when
`feof(stdin)` is false and to false when `feof(stdin)` is true; every
interpreter-side access (`ReadKBByte`, `HandleControlLoad`,
`HandleOtherCSRRead`; `IsKBHit` only reads) either leaves `hasKBBuf` unchanged
or changes it from true to false, never from false to true. -/
theorem keyboard_buffer_protocol (charSigned : Bool) (c : Int) (atEof should_exit : Bool)
    (addy csrno : Nat) (kb : KB) :
    (rv32ima_kbd charSigned c atEof should_exit kb).hasKBBuf =
      (if should_exit then kb.hasKBBuf else !atEof) ∧
    ((ReadKBByte kb).2.hasKBBuf = kb.hasKBBuf ∨
      (kb.hasKBBuf = true ∧ (ReadKBByte kb).2.hasKBBuf = false)) ∧
    ((HandleControlLoad addy kb).2.hasKBBuf = kb.hasKBBuf ∨
      (kb.hasKBBuf = true ∧ (HandleControlLoad addy kb).2.hasKBBuf = false)) ∧
    ((HandleOtherCSRRead csrno kb).2.hasKBBuf = kb.hasKBBuf ∨
      (kb.hasKBBuf = true ∧ (HandleOtherCSRRead csrno kb).2.hasKBBuf = false)) := by
  have hr : (ReadKBByte kb).2.hasKBBuf = kb.hasKBBuf ∨
      (kb.hasKBBuf = true ∧ (ReadKBByte kb).2.hasKBBuf = false) := by
    unfold ReadKBByte
    split
    · exact Or.inl rfl
    · split
      · exact Or.inl rfl
      · rename_i h; right; simpa using h
  refine ⟨?_, hr, ?_, ?_⟩
  · unfold rv32ima_kbd
    cases should_exit <;> cases atEof <;> simp
  · unfold HandleControlLoad
    split
    · exact Or.inl rfl
    · split
      · exact hr
      · exact Or.inl rfl
  · unfold HandleOtherCSRRead
    split
    · split
      · exact Or.inl rfl
      · exact hr
    · exact Or.inl rfl

end MiniRv32ima
